import Mathlib

/-
Verification of the disgord gateway client against its specification.

The development shallowly embeds the parts of the Go source that the
properties below speak about:

* src/event_dispatcher.go — the Dispatch registry (listener lists, the
  once-only index register, the per-event channels, start/stop) and the
  Unmarshal helper.
* src/unnamed/part_000 — Client.Connect, Client.Disconnect, Client.Emit,
  Client.eventHandler, and the tlru CacheList (Set / removeLRU).
* src/struct_channel.go — Channel.valid.
* src/websocket — only client_test.go is available, so the tracked-event
  registry is modelled from the specification (see RegisterEvent below).

Handlers and payloads are identified by natural numbers: the dispatcher
never inspects a handler value, it only stores and invokes it, so handler
identity is all the embedding needs.  Go slices become Lean lists, Go maps
with string keys become functions from String (a missing key is the empty
list / zero), and a Go runtime panic is an `Except.error`.
-/

namespace Disgord

/-! ## Event keys

Constants of the event package (the package itself is not under src/; the
values are the gateway event names used throughout the source, and the two
exercised by websocket/client_test.go are READY and RESUMED). -/

def KeyReady : String := "READY"

def KeyResumed : String := "RESUMED"

def KeyChannelCreate : String := "CHANNEL_CREATE"

def KeyChannelUpdate : String := "CHANNEL_UPDATE"

def KeyChannelDelete : String := "CHANNEL_DELETE"

def KeyChannelPinsUpdate : String := "CHANNEL_PINS_UPDATE"

def KeyGuildCreate : String := "GUILD_CREATE"

def KeyGuildUpdate : String := "GUILD_UPDATE"

def KeyGuildDelete : String := "GUILD_DELETE"

def KeyGuildBanAdd : String := "GUILD_BAN_ADD"

def KeyGuildBanRemove : String := "GUILD_BAN_REMOVE"

def KeyGuildEmojisUpdate : String := "GUILD_EMOJIS_UPDATE"

def KeyGuildIntegrationsUpdate : String := "GUILD_INTEGRATIONS_UPDATE"

def KeyGuildMemberAdd : String := "GUILD_MEMBER_ADD"

def KeyGuildMemberRemove : String := "GUILD_MEMBER_REMOVE"

def KeyGuildMemberUpdate : String := "GUILD_MEMBER_UPDATE"

def KeyGuildMembersChunk : String := "GUILD_MEMBERS_CHUNK"

def KeyGuildRoleCreate : String := "GUILD_ROLE_CREATE"

def KeyGuildRoleUpdate : String := "GUILD_ROLE_UPDATE"

def KeyGuildRoleDelete : String := "GUILD_ROLE_DELETE"

def KeyMessageCreate : String := "MESSAGE_CREATE"

def KeyMessageUpdate : String := "MESSAGE_UPDATE"

def KeyMessageDelete : String := "MESSAGE_DELETE"

def KeyMessageDeleteBulk : String := "MESSAGE_DELETE_BULK"

def KeyMessageReactionAdd : String := "MESSAGE_REACTION_ADD"

def KeyMessageReactionRemove : String := "MESSAGE_REACTION_REMOVE"

def KeyMessageReactionRemoveAll : String := "MESSAGE_REACTION_REMOVE_ALL"

def KeyPresenceUpdate : String := "PRESENCE_UPDATE"

def KeyTypingStart : String := "TYPING_START"

def KeyUserUpdate : String := "USER_UPDATE"

def KeyVoiceStateUpdate : String := "VOICE_STATE_UPDATE"

def KeyVoiceServerUpdate : String := "VOICE_SERVER_UPDATE"

def KeyWebhooksUpdate : String := "WEBHOOKS_UPDATE"

/-! ## The per-event channels of the Dispatch struct

One identifier per channel field of Dispatch (src/event_dispatcher.go
lines 104..146): the generic allChan plus the thirty-three typed channels. -/

inductive ChanId where
  | allChan
  | readyChan
  | resumedChan
  | channelCreateChan
  | channelUpdateChan
  | channelDeleteChan
  | channelPinsUpdateChan
  | guildCreateChan
  | guildUpdateChan
  | guildDeleteChan
  | guildBanAddChan
  | guildBanRemoveChan
  | guildEmojisUpdateChan
  | guildIntegrationsUpdateChan
  | guildMemberAddChan
  | guildMemberRemoveChan
  | guildMemberUpdateChan
  | guildMembersChunkChan
  | guildRoleCreateChan
  | guildRoleUpdateChan
  | guildRoleDeleteChan
  | messageCreateChan
  | messageUpdateChan
  | messageDeleteChan
  | messageDeleteBulkChan
  | messageReactionAddChan
  | messageReactionRemoveChan
  | messageReactionRemoveAllChan
  | presenceUpdateChan
  | typingStartChan
  | userUpdateChan
  | voiceStateUpdateChan
  | voiceServerUpdateChan
  | webhooksUpdateChan
deriving DecidableEq, Repr

/-- The switch of Dispatch.triggerChan (src/event_dispatcher.go 214..285):
each recognized event name selects the channel its box is sent on; the
default branch prints a TODO notice and sends nothing. -/
def keyToChan (evtName : String) : Option ChanId :=
  if evtName = KeyReady then some ChanId.readyChan
  else if evtName = KeyResumed then some ChanId.resumedChan
  else if evtName = KeyChannelCreate then some ChanId.channelCreateChan
  else if evtName = KeyChannelUpdate then some ChanId.channelUpdateChan
  else if evtName = KeyChannelDelete then some ChanId.channelDeleteChan
  else if evtName = KeyChannelPinsUpdate then some ChanId.channelPinsUpdateChan
  else if evtName = KeyGuildCreate then some ChanId.guildCreateChan
  else if evtName = KeyGuildUpdate then some ChanId.guildUpdateChan
  else if evtName = KeyGuildDelete then some ChanId.guildDeleteChan
  else if evtName = KeyGuildBanAdd then some ChanId.guildBanAddChan
  else if evtName = KeyGuildBanRemove then some ChanId.guildBanRemoveChan
  else if evtName = KeyGuildEmojisUpdate then some ChanId.guildEmojisUpdateChan
  else if evtName = KeyGuildIntegrationsUpdate then some ChanId.guildIntegrationsUpdateChan
  else if evtName = KeyGuildMemberAdd then some ChanId.guildMemberAddChan
  else if evtName = KeyGuildMemberRemove then some ChanId.guildMemberRemoveChan
  else if evtName = KeyGuildMemberUpdate then some ChanId.guildMemberUpdateChan
  else if evtName = KeyGuildMembersChunk then some ChanId.guildMembersChunkChan
  else if evtName = KeyGuildRoleCreate then some ChanId.guildRoleCreateChan
  else if evtName = KeyGuildRoleUpdate then some ChanId.guildRoleUpdateChan
  else if evtName = KeyGuildRoleDelete then some ChanId.guildRoleDeleteChan
  else if evtName = KeyMessageCreate then some ChanId.messageCreateChan
  else if evtName = KeyMessageUpdate then some ChanId.messageUpdateChan
  else if evtName = KeyMessageDelete then some ChanId.messageDeleteChan
  else if evtName = KeyMessageDeleteBulk then some ChanId.messageDeleteBulkChan
  else if evtName = KeyMessageReactionAdd then some ChanId.messageReactionAddChan
  else if evtName = KeyMessageReactionRemove then some ChanId.messageReactionRemoveChan
  else if evtName = KeyMessageReactionRemoveAll then some ChanId.messageReactionRemoveAllChan
  else if evtName = KeyPresenceUpdate then some ChanId.presenceUpdateChan
  else if evtName = KeyTypingStart then some ChanId.typingStartChan
  else if evtName = KeyUserUpdate then some ChanId.userUpdateChan
  else if evtName = KeyVoiceStateUpdate then some ChanId.voiceStateUpdateChan
  else if evtName = KeyVoiceServerUpdate then some ChanId.voiceServerUpdateChan
  else if evtName = KeyWebhooksUpdate then some ChanId.webhooksUpdateChan
  else none

/-- Event names with a case in the dispatch switches (both triggerChan and
triggerCallbacks switch over the same key set). -/
def recognizedKey (evtName : String) : Bool :=
  (keyToChan evtName).isSome

/-- Dispatch.triggerChan (src/event_dispatcher.go 214..285): the channel
sends one dispatched event performs.  Each recognized case is a single
send on the channel of that event name; the default case sends nothing.
No case sends on allChan. -/
def triggerChan (evtName : String) : List ChanId :=
  match keyToChan evtName with
  | some c => [c]
  | none => []

/-! ## The listener registry (Dispatch) -/

/-- The Dispatch registry state (src/event_dispatcher.go 104..146).
Listeners are identified by numbers; a Go map with a missing key reads as
the empty slice, so the two maps are total functions into lists.
shutdownClosed records whether close(d.shutdown) has already run. -/
structure Dispatch where
  listeners : String → List Nat
  listenOnceOnly : String → List Nat
  shutdownClosed : Bool

/-- Pointwise map update for the two string-keyed registries. -/
def updFun (f : String → List Nat) (k : String) (v : List Nat) : String → List Nat :=
  fun x => if x = k then v else f x

/-- NewDispatch (src/event_dispatcher.go 14..58): empty maps, shutdown
channel open. -/
def NewDispatch : Dispatch :=
  { listeners := fun _ => []
    listenOnceOnly := fun _ => []
    shutdownClosed := false }

/-- Dispatch.AddHandler (src/event_dispatcher.go 625..630): append the
listener to the slice for evtName. -/
def Dispatch.AddHandler (d : Dispatch) (evtName : String) (listener : Nat) : Dispatch :=
  { d with listeners := updFun d.listeners evtName (d.listeners evtName ++ [listener]) }

/-- Dispatch.AddHandlerOnce (src/event_dispatcher.go 634..641): remember
the index the listener lands at, append the listener, and append the index
to the once-only register for evtName. -/
def Dispatch.AddHandlerOnce (d : Dispatch) (evtName : String) (listener : Nat) : Dispatch :=
  let index := (d.listeners evtName).length
  { d with
    listeners := updFun d.listeners evtName (d.listeners evtName ++ [listener])
    listenOnceOnly := updFun d.listenOnceOnly evtName (d.listenOnceOnly evtName ++ [index]) }

/-- One step of the delete-without-preserving-order idiom used at
src/event_dispatcher.go 429..434: overwrite slot i with the last element,
then truncate by one.  Indexing outside the slice is a Go runtime panic,
modelled as an error. -/
def swapRemoveAt (l : List Nat) (i : Nat) : Except String (List Nat) :=
  if i < l.length then
    Except.ok ((l.set i ((l.getLast?).getD 0)).dropLast)
  else
    Except.error "index out of range"

/-- The removal loop of Dispatch.triggerCallbacks (src/event_dispatcher.go
429..434): swap-remove the listener slice at each stored once-index, in
registration order. -/
def removeOnceIndices : List Nat → List Nat → Except String (List Nat)
  | [], l => Except.ok l
  | i :: rest, l =>
    match swapRemoveAt l i with
    | Except.ok next => removeOnceIndices rest next
    | Except.error e => Except.error e

/-- Dispatch.triggerCallbacks (src/event_dispatcher.go 287..441).  For a
recognized event name the switch spawns one goroutine per entry of the
listener slice (the returned invocation list: one element, one
independently scheduled goroutine); the default case spawns none.  After
the switch the once-only indices for evtName are swap-removed from the
listener slice and the once register for evtName is deleted; an
out-of-range stored index is a Go runtime panic (Except.error). -/
def Dispatch.triggerCallbacks (d : Dispatch) (evtName : String) :
    List Nat × Except String Dispatch :=
  let invoked := if recognizedKey evtName then d.listeners evtName else []
  match removeOnceIndices (d.listenOnceOnly evtName) (d.listeners evtName) with
  | Except.ok pruned =>
      (invoked,
       Except.ok { d with
         listeners := updFun d.listeners evtName pruned
         listenOnceOnly := updFun d.listenOnceOnly evtName [] })
  | Except.error e => (invoked, Except.error e)

/-- Dispatch.stop (src/event_dispatcher.go 154..156): close(d.shutdown).
In Go, closing an already-closed channel panics; Client.Disconnect
(src/unnamed/part_000 124..136) calls stop unconditionally on every
call. -/
def Dispatch.stop (d : Dispatch) : Except String Dispatch :=
  if d.shutdownClosed then
    Except.error "close of closed channel"
  else
    Except.ok { d with shutdownClosed := true }

/-! ## Decode step and the event-handler loop -/

/-- Result of reading one inbound payload: either json.Unmarshal succeeds
on it (wellFormed, carrying the decoded payload) or it is malformed. -/
inductive RawData where
  | wellFormed (payload : Nat)
  | malformed
deriving DecidableEq, Repr

/-- Unmarshal (src/event_dispatcher.go 645..650): json.Unmarshal, and on a
decode error the function panics (modelled as Except.error). -/
def Unmarshal : RawData → Except String Nat
  | RawData.wellFormed p => Except.ok p
  | RawData.malformed => Except.error "json decode error"

/-- One inbound dispatch frame as seen by Client.eventHandler. -/
structure Frame where
  name : String
  data : RawData

/-- One iteration of the event loop in Client.eventHandler
(src/unnamed/part_000 1038..1325).  A recognized event name unmarshals the
payload (a decode failure panics, aborting the loop goroutine) and then
runs triggerChan and triggerCallbacks; the default branch prints a TODO
notice and continues with the dispatcher unchanged.  Returns the channel
sends performed, the callback invocations spawned, and the new dispatcher
state. -/
def eventHandlerStep (d : Dispatch) (f : Frame) :
    Except String (List ChanId × List Nat × Dispatch) :=
  if recognizedKey f.name then
    match Unmarshal f.data with
    | Except.ok _ =>
        let sends := triggerChan f.name
        let step := d.triggerCallbacks f.name
        match step.2 with
        | Except.ok d2 => Except.ok (sends, step.1, d2)
        | Except.error e => Except.error e
    | Except.error e => Except.error e
  else
    Except.ok ([], [], d)

/-! ## Application commands (Client.Emit) -/

/-- The socket command kinds the client layer can name.  The three
whitelisted constants of Client.Emit (src/unnamed/part_000 180) plus the
internal control commands of the spec opcode list. -/
inductive SocketCommand where
  | updateStatus
  | updateVoiceState
  | requestGuildMembers
  | heartbeat
  | identifyCmd
  | resumeCmd
deriving DecidableEq, Repr

/-- Client.Emit (src/unnamed/part_000 178..185): the switch forwards
CommandUpdateStatus, CommandUpdateVoiceState and CommandRequestGuildMembers
to c.ws.Emit; every other command kind returns without reaching the write
path.  Returns whether the command was forwarded. -/
def ClientEmit (command : SocketCommand) : Bool :=
  match command with
  | SocketCommand.updateStatus => true
  | SocketCommand.updateVoiceState => true
  | SocketCommand.requestGuildMembers => true
  | _ => false

/-! ## Client.Connect -/

/-- The background tasks Client.Connect can start: the channel-drain
goroutine spawned by Dispatch.start via alwaysListenToChans
(src/event_dispatcher.go 148..152 and 164..212), and the eventHandler
goroutine. -/
inductive EngineTask where
  | chanDrain
  | eventHandlerTask
deriving DecidableEq, Repr

/-- What a call to Client.Connect produced: the returned error value and
the background tasks running at the moment it returns. -/
structure ConnectOutcome where
  result : Option String
  startedTasks : List EngineTask
deriving DecidableEq, Repr

/-- Client.Connect (src/unnamed/part_000 107..121): first
c.evtDispatch.start() runs, which launches the alwaysListenToChans drain
goroutine; then c.ws.Connect() is attempted (its body is outside src/, so
its synchronous result is a parameter); on error that error is returned at
once; on success `go c.eventHandler()` is spawned and nil returned. -/
def ClientConnect (wsConnectResult : Option String) : ConnectOutcome :=
  let started := [EngineTask.chanDrain]
  match wsConnectResult with
  | some e => { result := some e, startedTasks := started }
  | none => { result := none, startedTasks := started ++ [EngineTask.eventHandlerTask] }

/-! ## Tracked-event registry of the websocket client -/

/-- Modelled from the spec: the body of websocket.Client.RegisterEvent is
not under src/ (only websocket/client_test.go is).  Spec section 6 calls
RegisterEvent and RemoveEvent reference-counted interest tracking, a name
staying tracked while its registration count is greater than zero; the
model keeps one count per event name.  RegisterEvent increments the count
for the name. -/
def RegisterEvent (tracked : String → Nat) (name : String) : String → Nat :=
  fun k => if k = name then tracked k + 1 else tracked k

/-- Modelled from the spec: websocket.Client.RemoveEvent decrements the
registration count for the name (a name with count zero stays at zero). -/
def RemoveEvent (tracked : String → Nat) (name : String) : String → Nat :=
  fun k => if k = name then tracked k - 1 else tracked k

/-- A name is tracked while its registration count exceeds zero. -/
def isTracked (tracked : String → Nat) (name : String) : Bool :=
  decide (0 < tracked name)

/-! ## The tlru cache (CacheList) -/

/-- CacheItem (src/unnamed/part_000 1348..1357): cached content, death
timestamp, and the last-used timestamp maintained for LRU eviction.
Content and timestamps are numbers here. -/
structure CacheItem where
  item : Nat
  death : Nat
  lastUsed : Nat
deriving DecidableEq, Repr

/-- CacheItem.update (src/unnamed/part_000 1367..1370): stamp the item
with the current time. -/
def CacheItem.update (i : CacheItem) (now : Nat) : CacheItem :=
  { i with lastUsed := now }

/-- CacheList (src/unnamed/part_000 1384..1392): the Go map is embedded as
an association list with pairwise-distinct keys, iterated in insertion
order (one fixed choice of the unspecified Go map iteration order; First
reads the head).  Snowflake keys are numbers. -/
structure CacheList where
  items : List (Nat × CacheItem)
  limit : Nat
deriving DecidableEq, Repr

/-- NewCacheList (src/unnamed/part_000 1376..1382). -/
def NewCacheList (size : Nat) : CacheList :=
  { items := [], limit := size }

/-- Map read, list.items[id]. -/
def lookupA : List (Nat × CacheItem) → Nat → Option CacheItem
  | [], _ => none
  | kv :: rest, id => if kv.1 = id then some kv.2 else lookupA rest id

/-- Overwrite of an existing entry, *item = *newItem in Set. -/
def setA : List (Nat × CacheItem) → Nat → CacheItem → List (Nat × CacheItem)
  | [], _, _ => []
  | kv :: rest, id, ni => if kv.1 = id then (id, ni) :: rest else kv :: setA rest id ni

/-- Map delete, delete(list.items, lruKey). -/
def deleteKey : List (Nat × CacheItem) → Nat → List (Nat × CacheItem)
  | [], _ => []
  | kv :: rest, key =>
    if kv.1 = key then deleteKey rest key else kv :: deleteKey rest key

/-- The scan loop of CacheList.removeLRU (src/unnamed/part_000 1428..1434):
walk every entry, replacing the candidate whenever the entry is not the
exception and was used strictly less recently. -/
def lruFold (exception : Nat) :
    Nat × CacheItem → List (Nat × CacheItem) → Nat × CacheItem
  | acc, [] => acc
  | acc, kv :: rest =>
    if kv.1 ≠ exception ∧ kv.2.lastUsed < acc.2.lastUsed then
      lruFold exception kv rest
    else
      lruFold exception acc rest

/-- CacheList.size (src/unnamed/part_000 1394..1396). -/
def CacheList.size (l : CacheList) : Nat :=
  l.items.length

/-- CacheList.removeLRU (src/unnamed/part_000 1426..1437): seed the
candidate with First() and scan the whole map, then delete the candidate
key.  Never called on an empty map by Set; the empty case is the identity.
-/
def CacheList.removeLRU (l : CacheList) (exception : Nat) : CacheList :=
  match l.items with
  | [] => l
  | first :: _ =>
    let lru := lruFold exception first l.items
    { l with items := deleteKey l.items lru.1 }

/-- CacheList.Set (src/unnamed/part_000 1407..1424): stamp the new item,
overwrite in place when the key exists, else insert; when a nonzero limit
is now exceeded, remove the least recently used entry other than the one
just inserted.  (The Go exists-branch skips the write when old and new
content already agree; the stored value is the same either way.) -/
def CacheList.Set (l : CacheList) (id : Nat) (newItem : CacheItem) (now : Nat) : CacheList :=
  let ni := newItem.update now
  if (lookupA l.items id).isSome then { l with items := setA l.items id ni }
  else
    let inserted : CacheList := { l with items := l.items ++ [(id, ni)] }
    if l.limit = 0 ∨ inserted.size ≤ l.limit then inserted
    else inserted.removeLRU id

/-- A sequence of Set calls, each with its key, item and timestamp. -/
def applySets : CacheList → List (Nat × CacheItem × Nat) → CacheList
  | l, [] => l
  | l, (id, it, now) :: rest => applySets (l.Set id it now) rest

/-! ## Channel validation -/

/-- Channel (src/struct_channel.go 85..116), restricted to the fields
Channel.valid reads plus its identity.  String lengths count characters. -/
structure Channel where
  ID : Nat
  type : Nat
  Name : String
  Topic : Option String
  RateLimitPerUser : Nat
deriving DecidableEq, Repr

/-- The topic test of Channel.valid: c.Topic != nil && len(*c.Topic) > 1024. -/
def topicTooLong : Option String → Bool
  | some t => decide (1024 < t.length)
  | none => false

/-- Channel.valid (src/struct_channel.go 118..132). -/
def Channel.valid (c : Channel) : Bool :=
  if 120 < c.RateLimitPerUser then false
  else if topicTooLong c.Topic then false
  else if c.Name ≠ "" ∧ (100 < c.Name.length ∨ c.Name.length < 2) then false
  else true

/-! ## Theorems -/

/-- The invocation list of triggerCallbacks is the listener slice of the
event name (or empty for an unrecognized name), whether or not the
once-removal that follows the switch succeeds. -/
theorem triggerCallbacks_fst (d : Dispatch) (evtName : String) :
    (d.triggerCallbacks evtName).1
      = if recognizedKey evtName then d.listeners evtName else [] := by
  unfold Dispatch.triggerCallbacks
  cases removeOnceIndices (d.listenOnceOnly evtName) (d.listeners evtName) <;> rfl

/-- C1: the spec promises that a once-handler is invoked for the next
event of its name and removed, leaving every other handler for that name
untouched, for any number of once-registrations.  The code stores list
indices at registration time and swap-removes by those stale indices after
dispatch: with two once-handlers for READY, both are invoked, the first
swap-remove shrinks the slice to length one, and the second stored index
(1) is then out of range — a Go runtime panic instead of a clean removal.
-/
theorem addHandlerOnce_two_then_dispatch_out_of_range :
    ((NewDispatch.AddHandlerOnce KeyReady 1).AddHandlerOnce KeyReady 2).triggerCallbacks
        KeyReady
      = ([1, 2], Except.error "index out of range") := by
  rfl

/-- C2: the spec promises shutdown is idempotent.  Dispatch.stop runs
close(d.shutdown) unconditionally, and Client.Disconnect calls it on every
invocation, so the second shutdown closes an already-closed channel — a Go
runtime panic, not a no-op. -/
theorem dispatch_stop_second_call_errors :
    (NewDispatch.stop >>= Dispatch.stop) = Except.error "close of closed channel" := by
  rfl

/-- C3: the spec promises a malformed frame is dropped and the pipeline
continues.  A READY frame whose payload fails json decoding makes
unmarshal panic, aborting the event-handler loop; only the
unrecognized-name branch actually drops and continues. -/
theorem malformed_frame_aborts_event_loop :
    eventHandlerStep NewDispatch { name := KeyReady, data := RawData.malformed }
        = Except.error "json decode error" ∧
    eventHandlerStep NewDispatch { name := "XYZ", data := RawData.malformed }
        = Except.ok ([], [], NewDispatch) := by
  exact ⟨rfl, rfl⟩

/-- Every channel the triggerChan switch selects is a typed channel: no
case of the switch selects allChan. -/
theorem keyToChan_ne_allChan (evtName : String) (c : ChanId)
    (h : keyToChan evtName = some c) : c ≠ ChanId.allChan := by
  unfold keyToChan at h
  by_cases e0 : evtName = KeyReady
  · rw [if_pos e0] at h; injection h with h2; subst h2; decide
  rw [if_neg e0] at h
  by_cases e1 : evtName = KeyResumed
  · rw [if_pos e1] at h; injection h with h2; subst h2; decide
  rw [if_neg e1] at h
  by_cases e2 : evtName = KeyChannelCreate
  · rw [if_pos e2] at h; injection h with h2; subst h2; decide
  rw [if_neg e2] at h
  by_cases e3 : evtName = KeyChannelUpdate
  · rw [if_pos e3] at h; injection h with h2; subst h2; decide
  rw [if_neg e3] at h
  by_cases e4 : evtName = KeyChannelDelete
  · rw [if_pos e4] at h; injection h with h2; subst h2; decide
  rw [if_neg e4] at h
  by_cases e5 : evtName = KeyChannelPinsUpdate
  · rw [if_pos e5] at h; injection h with h2; subst h2; decide
  rw [if_neg e5] at h
  by_cases e6 : evtName = KeyGuildCreate
  · rw [if_pos e6] at h; injection h with h2; subst h2; decide
  rw [if_neg e6] at h
  by_cases e7 : evtName = KeyGuildUpdate
  · rw [if_pos e7] at h; injection h with h2; subst h2; decide
  rw [if_neg e7] at h
  by_cases e8 : evtName = KeyGuildDelete
  · rw [if_pos e8] at h; injection h with h2; subst h2; decide
  rw [if_neg e8] at h
  by_cases e9 : evtName = KeyGuildBanAdd
  · rw [if_pos e9] at h; injection h with h2; subst h2; decide
  rw [if_neg e9] at h
  by_cases e10 : evtName = KeyGuildBanRemove
  · rw [if_pos e10] at h; injection h with h2; subst h2; decide
  rw [if_neg e10] at h
  by_cases e11 : evtName = KeyGuildEmojisUpdate
  · rw [if_pos e11] at h; injection h with h2; subst h2; decide
  rw [if_neg e11] at h
  by_cases e12 : evtName = KeyGuildIntegrationsUpdate
  · rw [if_pos e12] at h; injection h with h2; subst h2; decide
  rw [if_neg e12] at h
  by_cases e13 : evtName = KeyGuildMemberAdd
  · rw [if_pos e13] at h; injection h with h2; subst h2; decide
  rw [if_neg e13] at h
  by_cases e14 : evtName = KeyGuildMemberRemove
  · rw [if_pos e14] at h; injection h with h2; subst h2; decide
  rw [if_neg e14] at h
  by_cases e15 : evtName = KeyGuildMemberUpdate
  · rw [if_pos e15] at h; injection h with h2; subst h2; decide
  rw [if_neg e15] at h
  by_cases e16 : evtName = KeyGuildMembersChunk
  · rw [if_pos e16] at h; injection h with h2; subst h2; decide
  rw [if_neg e16] at h
  by_cases e17 : evtName = KeyGuildRoleCreate
  · rw [if_pos e17] at h; injection h with h2; subst h2; decide
  rw [if_neg e17] at h
  by_cases e18 : evtName = KeyGuildRoleUpdate
  · rw [if_pos e18] at h; injection h with h2; subst h2; decide
  rw [if_neg e18] at h
  by_cases e19 : evtName = KeyGuildRoleDelete
  · rw [if_pos e19] at h; injection h with h2; subst h2; decide
  rw [if_neg e19] at h
  by_cases e20 : evtName = KeyMessageCreate
  · rw [if_pos e20] at h; injection h with h2; subst h2; decide
  rw [if_neg e20] at h
  by_cases e21 : evtName = KeyMessageUpdate
  · rw [if_pos e21] at h; injection h with h2; subst h2; decide
  rw [if_neg e21] at h
  by_cases e22 : evtName = KeyMessageDelete
  · rw [if_pos e22] at h; injection h with h2; subst h2; decide
  rw [if_neg e22] at h
  by_cases e23 : evtName = KeyMessageDeleteBulk
  · rw [if_pos e23] at h; injection h with h2; subst h2; decide
  rw [if_neg e23] at h
  by_cases e24 : evtName = KeyMessageReactionAdd
  · rw [if_pos e24] at h; injection h with h2; subst h2; decide
  rw [if_neg e24] at h
  by_cases e25 : evtName = KeyMessageReactionRemove
  · rw [if_pos e25] at h; injection h with h2; subst h2; decide
  rw [if_neg e25] at h
  by_cases e26 : evtName = KeyMessageReactionRemoveAll
  · rw [if_pos e26] at h; injection h with h2; subst h2; decide
  rw [if_neg e26] at h
  by_cases e27 : evtName = KeyPresenceUpdate
  · rw [if_pos e27] at h; injection h with h2; subst h2; decide
  rw [if_neg e27] at h
  by_cases e28 : evtName = KeyTypingStart
  · rw [if_pos e28] at h; injection h with h2; subst h2; decide
  rw [if_neg e28] at h
  by_cases e29 : evtName = KeyUserUpdate
  · rw [if_pos e29] at h; injection h with h2; subst h2; decide
  rw [if_neg e29] at h
  by_cases e30 : evtName = KeyVoiceStateUpdate
  · rw [if_pos e30] at h; injection h with h2; subst h2; decide
  rw [if_neg e30] at h
  by_cases e31 : evtName = KeyVoiceServerUpdate
  · rw [if_pos e31] at h; injection h with h2; subst h2; decide
  rw [if_neg e31] at h
  by_cases e32 : evtName = KeyWebhooksUpdate
  · rw [if_pos e32] at h; injection h with h2; subst h2; decide
  rw [if_neg e32] at h
  exact Option.noConfusion h

/-- C4: the spec promises every event is pushed onto the all-events path
and onto its name-specific path.  triggerChan sends a READY event only on
readyChan, and no case of the switch (for any event name) ever sends on
allChan. -/
theorem triggerChan_no_allChan_send :
    triggerChan KeyReady = [ChanId.readyChan] ∧
    ∀ evtName : String, ChanId.allChan ∉ triggerChan evtName := by
  refine ⟨rfl, ?_⟩
  intro evtName
  unfold triggerChan
  cases hk : keyToChan evtName with
  | none => simp
  | some c =>
    simp only [List.mem_singleton]
    intro hmem
    exact keyToChan_ne_allChan evtName c hk hmem.symm

/-- C5: reference-counted interest tracking (registry modelled from the
spec, see RegisterEvent): from an untracked name, registering twice and
removing once leaves the name tracked, and a second removal untracks it.
-/
theorem registerEvent_twice_removeOnce_refcount (t : String → Nat) (x : String)
    (h0 : isTracked t x = false) :
    isTracked (RemoveEvent (RegisterEvent (RegisterEvent t x) x) x) x = true ∧
    isTracked (RemoveEvent (RemoveEvent (RegisterEvent (RegisterEvent t x) x) x) x) x
      = false := by
  simp only [isTracked, decide_eq_false_iff_not, Nat.not_lt, Nat.le_zero] at h0
  refine ⟨?_, ?_⟩ <;>
    simp [isTracked, RegisterEvent, RemoveEvent, h0]

/-- Witness for C5 at a concrete registry and name. -/
theorem registerEvent_twice_removeOnce_refcount_witness :
    isTracked (fun _ => 0) KeyMessageCreate = false ∧
    (isTracked
        (RemoveEvent (RegisterEvent (RegisterEvent (fun _ => 0) KeyMessageCreate)
          KeyMessageCreate) KeyMessageCreate) KeyMessageCreate = true ∧
     isTracked
        (RemoveEvent (RemoveEvent (RegisterEvent (RegisterEvent (fun _ => 0)
          KeyMessageCreate) KeyMessageCreate) KeyMessageCreate) KeyMessageCreate)
        KeyMessageCreate = false) :=
  ⟨by rfl, registerEvent_twice_removeOnce_refcount (fun _ => 0) KeyMessageCreate (by rfl)⟩

/-- C6: Client.Emit forwards a command to the gateway write path exactly
when it is one of the three whitelisted application-issuable commands;
every other kind returns before reaching c.ws.Emit. -/
theorem emit_forwards_iff_whitelisted (command : SocketCommand) :
    ClientEmit command = true ↔
      (command = SocketCommand.updateStatus ∨
       command = SocketCommand.updateVoiceState ∨
       command = SocketCommand.requestGuildMembers) := by
  cases command <;> simp [ClientEmit]

/-- C7: for a delivered event with a recognized name, every handler
occurrence registered for that name appears exactly once in the invocation
list of triggerCallbacks, each entry being its own spawned goroutine. -/
theorem triggerCallbacks_each_handler_once (d : Dispatch) (evtName : String) (h : Nat)
    (hrec : recognizedKey evtName = true) :
    ((d.triggerCallbacks evtName).1).count h = (d.listeners evtName).count h := by
  rw [triggerCallbacks_fst, if_pos hrec]

/-- Witness for C7: one handler registered for READY is invoked once. -/
theorem triggerCallbacks_each_handler_once_witness :
    recognizedKey KeyReady = true ∧
    (((NewDispatch.AddHandler KeyReady 7).triggerCallbacks KeyReady).1).count 7
      = ((NewDispatch.AddHandler KeyReady 7).listeners KeyReady).count 7 :=
  ⟨by rfl,
   triggerCallbacks_each_handler_once (NewDispatch.AddHandler KeyReady 7) KeyReady 7
     (by rfl)⟩

/-- C8, counterexample: on a configuration error Connect does return the
error synchronously, but the dispatcher drain task was started before the
connection attempt, so the started-task list is not empty at that moment —
against the claim that no background task has been started. -/
theorem connect_config_error_drain_already_started :
    (ClientConnect (some "invalid endpoint")).result = some "invalid endpoint" ∧
    (ClientConnect (some "invalid endpoint")).startedTasks ≠ [] ∧
    EngineTask.chanDrain ∈ (ClientConnect (some "invalid endpoint")).startedTasks := by
  refine ⟨rfl, ?_, ?_⟩ <;> simp [ClientConnect]

/-- C8, amended: for every configuration error, Connect surfaces the error
synchronously and the event-handler task is not started; the channel-drain
task, started before the connection attempt, is the one task already
running when the error is returned. -/
theorem connect_error_synchronous_eventHandler_not_started (e : String) :
    (ClientConnect (some e)).result = some e ∧
    EngineTask.eventHandlerTask ∉ (ClientConnect (some e)).startedTasks ∧
    (ClientConnect (some e)).startedTasks = [EngineTask.chanDrain] := by
  refine ⟨rfl, ?_, rfl⟩
  simp [ClientConnect]

/-- C10: Channel.valid returns true exactly when the per-user rate limit
is at most 120, the topic (when present) has length at most 1024, and the
name is empty or between 2 and 100 characters long. -/
theorem channel_valid_iff (c : Channel) :
    c.valid = true ↔
      (c.RateLimitPerUser ≤ 120 ∧
       (∀ t, c.Topic = some t → t.length ≤ 1024) ∧
       (c.Name = "" ∨ (2 ≤ c.Name.length ∧ c.Name.length ≤ 100))) := by
  unfold Channel.valid
  constructor
  · intro hv
    have h1 : ¬120 < c.RateLimitPerUser := by
      intro h; rw [if_pos h] at hv; exact Bool.noConfusion hv
    rw [if_neg h1] at hv
    have h2 : ¬topicTooLong c.Topic = true := by
      intro h; rw [if_pos h] at hv; exact Bool.noConfusion hv
    rw [if_neg h2] at hv
    have h3 : ¬(c.Name ≠ "" ∧ (100 < c.Name.length ∨ c.Name.length < 2)) := by
      intro h; rw [if_pos h] at hv; exact Bool.noConfusion hv
    refine ⟨by omega, ?_, ?_⟩
    · intro t ht
      rw [ht] at h2
      simp only [topicTooLong, decide_eq_true_eq] at h2
      omega
    · by_cases hn : c.Name = ""
      · exact Or.inl hn
      · have h3' := h3
        push_neg at h3'
        have hb := h3' hn
        exact Or.inr ⟨by omega, by omega⟩
  · rintro ⟨hrate, htopic, hname⟩
    split_ifs with h1 h2 h3
    · exfalso; omega
    · exfalso
      rcases hc : c.Topic with _ | t
      · rw [hc] at h2; simp [topicTooLong] at h2
      · rw [hc] at h2
        simp only [topicTooLong, decide_eq_true_eq] at h2
        have := htopic t hc
        omega
    · exfalso
      rcases h3 with ⟨hne, hb⟩
      rcases hname with he | ⟨hl, hr⟩
      · exact hne he
      · rcases hb with hb | hb <;> omega
    · rfl

/-! ### Cache lemmas -/

/-- The LRU scan returns its seed or an element of the scanned list. -/
theorem lruFold_eq_or_mem (exception : Nat) (acc : Nat × CacheItem)
    (xs : List (Nat × CacheItem)) :
    lruFold exception acc xs = acc ∨ lruFold exception acc xs ∈ xs := by
  induction xs generalizing acc with
  | nil => exact Or.inl rfl
  | cons kv rest ih =>
    simp only [lruFold]
    split
    · rcases ih kv with h | h
      · rw [h]; exact Or.inr (List.mem_cons_self kv rest)
      · exact Or.inr (List.mem_cons_of_mem kv h)
    · rcases ih acc with h | h
      · exact Or.inl h
      · exact Or.inr (List.mem_cons_of_mem kv h)

/-- The LRU scan never settles on the exception key when its seed is not
the exception. -/
theorem lruFold_key_ne (exception : Nat) (acc : Nat × CacheItem)
    (xs : List (Nat × CacheItem)) (h : acc.1 ≠ exception) :
    (lruFold exception acc xs).1 ≠ exception := by
  induction xs generalizing acc with
  | nil => exact h
  | cons kv rest ih =>
    simp only [lruFold]
    split
    · next hc => exact ih kv hc.1
    · exact ih acc h

/-- The LRU scan result was used no later than its seed. -/
theorem lruFold_le_acc (exception : Nat) (acc : Nat × CacheItem)
    (xs : List (Nat × CacheItem)) :
    (lruFold exception acc xs).2.lastUsed ≤ acc.2.lastUsed := by
  induction xs generalizing acc with
  | nil => exact le_refl _
  | cons kv rest ih =>
    simp only [lruFold]
    split
    · next hc => exact le_trans (ih kv) (le_of_lt hc.2)
    · exact ih acc

/-- The LRU scan result was used no later than any scanned entry whose key
is not the exception. -/
theorem lruFold_min (exception : Nat) (acc : Nat × CacheItem)
    (xs : List (Nat × CacheItem)) :
    ∀ kv ∈ xs, kv.1 ≠ exception →
      (lruFold exception acc xs).2.lastUsed ≤ kv.2.lastUsed := by
  induction xs generalizing acc with
  | nil =>
    intro kv hkv
    exact absurd hkv (List.not_mem_nil kv)
  | cons hd rest ih =>
    intro kv hkv hne
    simp only [lruFold]
    split
    · next hc =>
      rcases List.mem_cons.mp hkv with rfl | hmem
      · exact lruFold_le_acc exception kv rest
      · exact ih hd kv hmem hne
    · next hc =>
      rcases List.mem_cons.mp hkv with rfl | hmem
      · have hle : acc.2.lastUsed ≤ kv.2.lastUsed := by
          by_contra hlt
          exact hc ⟨hne, by omega⟩
        exact le_trans (lruFold_le_acc exception acc rest) hle
      · exact ih acc kv hmem hne

/-- Deleting a key that is not in the association list is the identity. -/
theorem deleteKey_of_not_mem (xs : List (Nat × CacheItem)) (k : Nat)
    (h : k ∉ xs.map Prod.fst) : deleteKey xs k = xs := by
  induction xs with
  | nil => rfl
  | cons kv rest ih =>
    simp only [List.map_cons, List.mem_cons] at h
    push_neg at h
    simp only [deleteKey]
    rw [if_neg (fun he => h.1 he.symm), ih h.2]

/-- deleteKey only removes entries. -/
theorem deleteKey_sublist (xs : List (Nat × CacheItem)) (k : Nat) :
    (deleteKey xs k).Sublist xs := by
  induction xs with
  | nil => exact List.Sublist.refl []
  | cons kv rest ih =>
    simp only [deleteKey]
    split
    · exact ih.trans (List.sublist_cons_self kv rest)
    · exact List.Sublist.cons₂ kv ih

/-- With pairwise-distinct keys, deleting a present key removes exactly
one entry. -/
theorem deleteKey_length (xs : List (Nat × CacheItem)) (k : Nat)
    (hnd : (xs.map Prod.fst).Nodup) (hmem : k ∈ xs.map Prod.fst) :
    (deleteKey xs k).length + 1 = xs.length := by
  induction xs with
  | nil => exact absurd hmem (List.not_mem_nil k)
  | cons kv rest ih =>
    simp only [List.map_cons, List.nodup_cons] at hnd
    simp only [deleteKey]
    by_cases h : kv.1 = k
    · rw [if_pos h, deleteKey_of_not_mem rest k (h ▸ hnd.1)]
      simp
    · rw [if_neg h]
      have hmem2 : k = kv.1 ∨ k ∈ rest.map Prod.fst := by
        simpa only [List.map_cons, List.mem_cons] using hmem
      have hk : k ∈ rest.map Prod.fst := by
        rcases hmem2 with h1 | h1
        · exact absurd h1.symm h
        · exact h1
      have := ih hnd.2 hk
      simp only [List.length_cons]
      omega

/-- setA keeps the key sequence unchanged. -/
theorem setA_map_fst (xs : List (Nat × CacheItem)) (id : Nat) (ni : CacheItem) :
    (setA xs id ni).map Prod.fst = xs.map Prod.fst := by
  induction xs with
  | nil => rfl
  | cons kv rest ih =>
    simp only [setA]
    by_cases h : kv.1 = id
    · rw [if_pos h]
      simp [h]
    · rw [if_neg h]
      simp [ih]

/-- setA keeps the length unchanged. -/
theorem setA_length (xs : List (Nat × CacheItem)) (id : Nat) (ni : CacheItem) :
    (setA xs id ni).length = xs.length := by
  have := congrArg List.length (setA_map_fst xs id ni)
  simpa using this

/-- A failed lookup means the key is absent. -/
theorem lookupA_none_not_mem (xs : List (Nat × CacheItem)) (id : Nat)
    (h : lookupA xs id = none) : id ∉ xs.map Prod.fst := by
  induction xs with
  | nil => simp
  | cons kv rest ih =>
    simp only [lookupA] at h
    by_cases hk : kv.1 = id
    · rw [if_pos hk] at h
      exact Option.noConfusion h
    · rw [if_neg hk] at h
      simp only [List.map_cons, List.mem_cons]
      push_neg
      exact ⟨fun he => hk he.symm, ih h⟩

/-- The cache invariant the bound rests on: distinct keys and no more
entries than the limit. -/
def CacheInv (l : CacheList) : Prop :=
  (l.items.map Prod.fst).Nodup ∧ l.items.length ≤ l.limit

/-- Unfolding equation of CacheList.Set. -/
theorem set_eq (l : CacheList) (id : Nat) (it : CacheItem) (now : Nat) :
    l.Set id it now =
      if (lookupA l.items id).isSome then
        { l with items := setA l.items id (it.update now) }
      else if l.limit = 0 ∨ (l.items ++ [(id, it.update now)]).length ≤ l.limit then
        { l with items := l.items ++ [(id, it.update now)] }
      else ({ l with items := l.items ++ [(id, it.update now)] } : CacheList).removeLRU id :=
  rfl

/-- Unfolding equations of removeLRU on a cache whose item list is a cons. -/
theorem removeLRU_cons (l : CacheList) (exception : Nat) (first : Nat × CacheItem)
    (rest : List (Nat × CacheItem)) (h : l.items = first :: rest) :
    (l.removeLRU exception).items
        = deleteKey (first :: rest) (lruFold exception first (first :: rest)).1
      ∧ (l.removeLRU exception).limit = l.limit := by
  unfold CacheList.removeLRU
  rw [h]
  exact ⟨rfl, rfl⟩

/-- Appending one entry to a key-distinct list with a fresh key keeps the
keys distinct. -/
theorem nodup_append_fresh (xs : List (Nat × CacheItem)) (id : Nat) (ni : CacheItem)
    (hnd : (xs.map Prod.fst).Nodup) (hid : id ∉ xs.map Prod.fst) :
    ((xs ++ [(id, ni)]).map Prod.fst).Nodup := by
  rw [List.map_append]
  simp only [List.map_cons, List.map_nil]
  rw [List.nodup_append]
  refine ⟨hnd, List.nodup_singleton id, ?_⟩
  intro a ha hb
  rw [List.mem_singleton] at hb
  subst hb
  exact hid ha

/-- The LRU scan result is in the scanned list when the seed is its head. -/
theorem lruFold_mem_of_head (exception : Nat) (first : Nat × CacheItem)
    (rest : List (Nat × CacheItem)) :
    lruFold exception first (first :: rest) ∈ first :: rest := by
  rcases lruFold_eq_or_mem exception first (first :: rest) with h | h
  · rw [h]
    exact List.mem_cons_self _ _
  · exact h

/-- One Set call preserves the cache invariant (for a nonzero limit) and
never changes the limit. -/
theorem set_preserves_inv (l : CacheList) (id : Nat) (it : CacheItem) (now : Nat)
    (hlim : 0 < l.limit) (hinv : CacheInv l) :
    CacheInv (l.Set id it now) ∧ (l.Set id it now).limit = l.limit := by
  obtain ⟨hnd, hlen⟩ := hinv
  rw [set_eq]
  cases hlk : lookupA l.items id with
  | some v =>
    rw [if_pos (by simp)]
    refine ⟨⟨?_, ?_⟩, rfl⟩
    · show ((setA l.items id (it.update now)).map Prod.fst).Nodup
      rw [setA_map_fst]
      exact hnd
    · show (setA l.items id (it.update now)).length ≤ l.limit
      rw [setA_length]
      exact hlen
  | none =>
    rw [if_neg (by simp)]
    have hid : id ∉ l.items.map Prod.fst := lookupA_none_not_mem l.items id hlk
    have hnd2 := nodup_append_fresh l.items id (it.update now) hnd hid
    have happ : (l.items ++ [(id, it.update now)]).length = l.items.length + 1 := by
      simp
    by_cases hsz : l.limit = 0 ∨ (l.items ++ [(id, it.update now)]).length ≤ l.limit
    · rw [if_pos hsz]
      rcases hsz with h0 | hle
      · exact absurd h0 (by omega)
      · exact ⟨⟨hnd2, hle⟩, rfl⟩
    · rw [if_neg hsz]
      push_neg at hsz
      have hne : l.items ≠ [] := by
        intro h0
        rw [h0] at happ hsz
        simp only [List.nil_append, List.length_cons, List.length_nil] at hsz
        omega
      obtain ⟨first, rest, hitems⟩ := List.exists_cons_of_ne_nil hne
      have hconsitems : ({ l with items := l.items ++ [(id, it.update now)] } :
            CacheList).items = first :: (rest ++ [(id, it.update now)]) := by
        show l.items ++ [(id, it.update now)] = first :: (rest ++ [(id, it.update now)])
        rw [hitems]
        rfl
      obtain ⟨hrli, hrll⟩ :=
        removeLRU_cons _ id first (rest ++ [(id, it.update now)]) hconsitems
      have hxs_eq : first :: (rest ++ [(id, it.update now)])
          = l.items ++ [(id, it.update now)] := by
        rw [hitems]
        rfl
      have hnd3 : ((first :: (rest ++ [(id, it.update now)])).map Prod.fst).Nodup := by
        rw [hxs_eq]
        exact hnd2
      have hkey : (lruFold id first (first :: (rest ++ [(id, it.update now)]))).1
          ∈ (first :: (rest ++ [(id, it.update now)])).map Prod.fst :=
        List.mem_map_of_mem Prod.fst (lruFold_mem_of_head id first _)
      have hdel := deleteKey_length (first :: (rest ++ [(id, it.update now)]))
        (lruFold id first (first :: (rest ++ [(id, it.update now)]))).1 hnd3 hkey
      have hxlen : (first :: (rest ++ [(id, it.update now)])).length
          = l.items.length + 1 := by
        rw [hxs_eq]
        exact happ
      unfold CacheInv
      refine ⟨⟨?_, ?_⟩, hrll⟩
      · rw [hrli]
        exact List.Nodup.sublist
          ((deleteKey_sublist (first :: (rest ++ [(id, it.update now)])) _).map Prod.fst)
          hnd3
      · rw [hrli, hrll]
        have hXl : ({ l with items := l.items ++ [(id, it.update now)] } :
            CacheList).limit = l.limit := rfl
        rw [hXl]
        omega

/-- Any sequence of Set calls preserves the invariant and the limit. -/
theorem applySets_inv (ops : List (Nat × CacheItem × Nat)) (l : CacheList)
    (hlim : 0 < l.limit) (hinv : CacheInv l) :
    CacheInv (applySets l ops) ∧ (applySets l ops).limit = l.limit := by
  induction ops generalizing l with
  | nil => exact ⟨hinv, rfl⟩
  | cons op rest ih =>
    obtain ⟨id, it, now⟩ := op
    simp only [applySets]
    have hp := set_preserves_inv l id it now hlim hinv
    have hrec := ih (l.Set id it now) (hp.2 ▸ hlim) hp.1
    exact ⟨hrec.1, hrec.2.trans hp.2⟩

/-- Inserting a fresh key into a full cache evicts one entry: an old entry,
not the one just inserted, used no later than every other old entry. -/
theorem set_full_evicts (l : CacheList) (id : Nat) (it : CacheItem) (now : Nat)
    (hnd : (l.items.map Prod.fst).Nodup) (hlk : lookupA l.items id = none)
    (hfull : l.items.length = l.limit) (hlim : 0 < l.limit) :
    ∃ lru : Nat × CacheItem, lru ∈ l.items ∧ lru.1 ≠ id ∧
      (∀ kv ∈ l.items, lru.2.lastUsed ≤ kv.2.lastUsed) ∧
      (l.Set id it now).items = deleteKey (l.items ++ [(id, it.update now)]) lru.1 ∧
      (l.Set id it now).items.length = l.limit := by
  have hid : id ∉ l.items.map Prod.fst := lookupA_none_not_mem l.items id hlk
  have hnd2 := nodup_append_fresh l.items id (it.update now) hnd hid
  have happ : (l.items ++ [(id, it.update now)]).length = l.items.length + 1 := by
    simp
  have hne : l.items ≠ [] := by
    intro h0
    rw [h0] at hfull
    simp only [List.length_nil] at hfull
    omega
  obtain ⟨first, rest, hitems⟩ := List.exists_cons_of_ne_nil hne
  have hconsitems : ({ l with items := l.items ++ [(id, it.update now)] } :
        CacheList).items = first :: (rest ++ [(id, it.update now)]) := by
    show l.items ++ [(id, it.update now)] = first :: (rest ++ [(id, it.update now)])
    rw [hitems]
    rfl
  have hxs_eq : first :: (rest ++ [(id, it.update now)])
      = l.items ++ [(id, it.update now)] := by
    rw [hitems]
    rfl
  have hset : (l.Set id it now).items
      = deleteKey (first :: (rest ++ [(id, it.update now)]))
          (lruFold id first (first :: (rest ++ [(id, it.update now)]))).1 := by
    rw [set_eq]
    rw [if_neg (by simp [hlk])]
    rw [if_neg (by omega)]
    exact (removeLRU_cons _ id first (rest ++ [(id, it.update now)]) hconsitems).1
  have hsetlim : (l.Set id it now).limit = l.limit := by
    rw [set_eq]
    rw [if_neg (by simp [hlk])]
    rw [if_neg (by omega)]
    exact (removeLRU_cons _ id first (rest ++ [(id, it.update now)]) hconsitems).2
  have hfirst_mem : first ∈ l.items := by
    rw [hitems]
    exact List.mem_cons_self _ _
  have hfirst_ne : first.1 ≠ id := by
    intro he
    exact hid (he ▸ List.mem_map_of_mem Prod.fst hfirst_mem)
  have hkeyne : (lruFold id first (first :: (rest ++ [(id, it.update now)]))).1 ≠ id :=
    lruFold_key_ne id first _ hfirst_ne
  have hmemxs : lruFold id first (first :: (rest ++ [(id, it.update now)]))
      ∈ first :: (rest ++ [(id, it.update now)]) :=
    lruFold_mem_of_head id first _
  have hmemold : lruFold id first (first :: (rest ++ [(id, it.update now)])) ∈ l.items := by
    rcases List.mem_cons.mp hmemxs with h | h
    · rw [h, hitems]
      exact List.mem_cons_self _ _
    · rcases List.mem_append.mp h with h2 | h2
      · rw [hitems]
        exact List.mem_cons_of_mem _ h2
      · rw [List.mem_singleton] at h2
        exact absurd (congrArg Prod.fst h2) hkeyne
  refine ⟨lruFold id first (first :: (rest ++ [(id, it.update now)])), hmemold, hkeyne,
    ?_, ?_, ?_⟩
  · intro kv hkv
    have hkvxs : kv ∈ first :: (rest ++ [(id, it.update now)]) := by
      rw [hxs_eq]
      exact List.mem_append_left _ hkv
    have hkvne : kv.1 ≠ id := by
      intro he
      exact hid (he ▸ List.mem_map_of_mem Prod.fst hkv)
    exact lruFold_min id first _ kv hkvxs hkvne
  · rw [hset, ← hxs_eq]
  · rw [hset]
    show (deleteKey (first :: (rest ++ [(id, it.update now)]))
        (lruFold id first (first :: (rest ++ [(id, it.update now)]))).1).length = l.limit
    have hnd3 : ((first :: (rest ++ [(id, it.update now)])).map Prod.fst).Nodup := by
      rw [hxs_eq]
      exact hnd2
    have hkey : (lruFold id first (first :: (rest ++ [(id, it.update now)]))).1
        ∈ (first :: (rest ++ [(id, it.update now)])).map Prod.fst :=
      List.mem_map_of_mem Prod.fst hmemxs
    have hdel := deleteKey_length (first :: (rest ++ [(id, it.update now)]))
      (lruFold id first (first :: (rest ++ [(id, it.update now)]))).1 hnd3 hkey
    have hxlen : (first :: (rest ++ [(id, it.update now)])).length
        = l.items.length + 1 := by
      rw [hxs_eq]
      exact happ
    omega

/-- C9: with a nonzero limit, the cache never holds more items than the
limit after any sequence of Set calls; and a Set that inserts a fresh key
into a full cache evicts exactly one entry — an old one, never the entry
just inserted, whose last-used stamp is minimal among the old entries
(map iteration is modelled in insertion order). -/
theorem cacheList_set_bounded_and_evicts_lru (limit : Nat) (hlim : 0 < limit) :
    (∀ ops : List (Nat × CacheItem × Nat),
        (applySets (NewCacheList limit) ops).size ≤ limit) ∧
    (∀ (l : CacheList) (id : Nat) (it : CacheItem) (now : Nat),
        (l.items.map Prod.fst).Nodup → lookupA l.items id = none →
        l.items.length = l.limit → l.limit = limit →
        ∃ lru : Nat × CacheItem, lru ∈ l.items ∧ lru.1 ≠ id ∧
          (∀ kv ∈ l.items, lru.2.lastUsed ≤ kv.2.lastUsed) ∧
          (l.Set id it now).items
            = deleteKey (l.items ++ [(id, it.update now)]) lru.1 ∧
          (l.Set id it now).size = limit) := by
  constructor
  · intro ops
    have h := applySets_inv ops (NewCacheList limit) hlim ⟨List.nodup_nil, Nat.zero_le _⟩
    show (applySets (NewCacheList limit) ops).items.length ≤ limit
    have := h.1.2
    rw [h.2] at this
    exact this
  · intro l id it now hnd hlk hfull heq
    subst heq
    obtain ⟨lru, h1, h2, h3, h4, h5⟩ := set_full_evicts l id it now hnd hlk hfull hlim
    exact ⟨lru, h1, h2, h3, h4, h5⟩

/-- Witness for C9: a cache with limit one stays within its limit across
two insertions. -/
theorem cacheList_set_bounded_witness :
    0 < 1 ∧
    (applySets (NewCacheList 1)
        [(10, CacheItem.mk 0 0 0, 5), (11, CacheItem.mk 1 0 0, 6)]).size ≤ 1 :=
  ⟨Nat.one_pos, (cacheList_set_bounded_and_evicts_lru 1 Nat.one_pos).1 _⟩

end Disgord
